import Mathlib

/-!
Verification of the schema model and markdown renderer of the
`serde-config-docs` repository (crates `serde_config_docs`,
`serde_config_docs_derive`, and the `demo` crate).

The Rust sources are shallowly embedded: pure functions become Lean
functions, `String` buffers written with `writeln!` become explicit string
concatenation (`writelnS s = s ++ "\n"`), and the field tree becomes a
nested inductive type.  Unicode-aware Rust character operations
(`char::to_uppercase`, `char::to_ascii_uppercase`, `str::to_lowercase`)
are modelled by Lean's basic-latin `Char.toUpper` / `Char.toLower`, which
agree with them on ASCII input (all inputs appearing in this development
are ASCII).
-/

namespace SerdeConfigDocs

/-- One `writeln!(buffer, ...)` call: the written text followed by a newline. -/
def writelnS (s : String) : String := s ++ "\n"

/-- Embeds `enum ConfigFormat` (src/src/lib.rs:21-27).  The enum has exactly one
variant; the `Json`/`Yaml` variants are commented out in the source. -/
inductive ConfigFormat where
  | Toml
deriving Repr, DecidableEq

/-- Embeds `struct MarkdownOptions` (src/src/lib.rs:14-17). -/
structure MarkdownOptions where
  title : Option String
  format : ConfigFormat

/-- Embeds `MarkdownOptions::new` (src/src/lib.rs:31-36): no title, given format. -/
def MarkdownOptions.new (format : ConfigFormat) : MarkdownOptions :=
  { title := none, format := format }

/-- Embeds `struct FieldInfo` (src/src/lib.rs:46-54).  A nested inductive:
`nested_fields` holds the children of a section. -/
inductive FieldInfo where
  | mk (name : String) (doc_comments : Option String) (default_value : Option String)
      (field_type : String) (is_nested : Bool) (nested_fields : List FieldInfo)
deriving Repr

/-- Projection: `FieldInfo.name`. -/
def FieldInfo.name : FieldInfo → String
  | .mk n _ _ _ _ _ => n

/-- Projection: `FieldInfo.doc_comments`. -/
def FieldInfo.doc_comments : FieldInfo → Option String
  | .mk _ dc _ _ _ _ => dc

/-- Projection: `FieldInfo.default_value`. -/
def FieldInfo.default_value : FieldInfo → Option String
  | .mk _ _ dv _ _ _ => dv

/-- Projection: `FieldInfo.field_type`. -/
def FieldInfo.field_type : FieldInfo → String
  | .mk _ _ _ ft _ _ => ft

/-- Projection: `FieldInfo.is_nested`. -/
def FieldInfo.is_nested : FieldInfo → Bool
  | .mk _ _ _ _ n _ => n

/-- Projection: `FieldInfo.nested_fields`. -/
def FieldInfo.nested_fields : FieldInfo → List FieldInfo
  | .mk _ _ _ _ _ c => c

/-- Embeds `FieldInfo::new` (src/src/lib.rs:58-67). -/
def FieldInfo.new (name : String) : FieldInfo :=
  .mk name none none "" false []

/-- Embeds the fluent setter `FieldInfo::doc` (src/src/lib.rs:70-73). -/
def FieldInfo.doc : FieldInfo → String → FieldInfo
  | .mk n _ dv ft s c, d => .mk n (some d) dv ft s c

/-- Embeds the fluent setter `FieldInfo::default` (src/src/lib.rs:76-79). -/
def FieldInfo.default : FieldInfo → Option String → FieldInfo
  | .mk n dc _ ft s c, dv => .mk n dc dv ft s c

/-- Embeds the fluent setter `FieldInfo::field_type` (src/src/lib.rs:82-85). -/
def FieldInfo.set_field_type : FieldInfo → String → FieldInfo
  | .mk n dc dv _ s c, ft => .mk n dc dv ft s c

/-- Embeds the fluent setter `FieldInfo::nested` (src/src/lib.rs:88-92):
flips `is_nested` to true and stores the children. -/
def FieldInfo.nested : FieldInfo → List FieldInfo → FieldInfo
  | .mk n dc dv ft _ _, cs => .mk n dc dv ft true cs

/-- Embeds `struct ConfigSchemaBuilder` (src/src/lib.rs:97-99). -/
structure ConfigSchemaBuilder where
  fields : List FieldInfo

/-- Embeds `ConfigSchemaBuilder::new` (src/src/lib.rs:103-105). -/
def ConfigSchemaBuilder.new : ConfigSchemaBuilder := ⟨[]⟩

/-- Embeds `ConfigSchemaBuilder::add_field` (src/src/lib.rs:108-111): append. -/
def ConfigSchemaBuilder.add_field (b : ConfigSchemaBuilder) (f : FieldInfo) :
    ConfigSchemaBuilder := ⟨b.fields ++ [f]⟩

/-- Embeds `struct ConfigSchema` (src/src/lib.rs:123-125). -/
structure ConfigSchema where
  fields : List FieldInfo

/-- Embeds `ConfigSchemaBuilder::build` (src/src/lib.rs:114-118). -/
def ConfigSchemaBuilder.build (b : ConfigSchemaBuilder) : ConfigSchema := ⟨b.fields⟩

/-- Concatenation of a list of strings (Rust's repeated `write!`/`push_str`). -/
def concat_strings : List String → String
  | [] => ""
  | s :: rest => s ++ concat_strings rest

/-- Embeds `capitalize` (src/src/lib.rs:228-234): uppercase the first character
(`char::to_uppercase`, modelled by `Char.toUpper`), keep the rest unchanged. -/
def capitalize (s : String) : String :=
  match s.data with
  | [] => ""
  | f :: rest => String.mk (f.toUpper :: rest)

/-- One hexadecimal digit (used by the TOML control-character escape). -/
def hex_digit (n : Nat) : Char :=
  if n < 10 then Char.ofNat (48 + n) else Char.ofNat (55 + n)

/-- Four-digit uppercase hexadecimal rendering of a code point below 0x10000. -/
def hex4 (n : Nat) : String :=
  String.mk [hex_digit (n / 4096 % 16), hex_digit (n / 256 % 16),
    hex_digit (n / 16 % 16), hex_digit (n % 16)]

/-- Modelled from the spec: the escape of one character inside a TOML basic
string, as produced by the external `toml` crate's value serializer (the
crate's source is not part of this repository; spec section 4.6 describes
`format_scalar` as quoting strings).  Quote and backslash are escaped, the
control characters use their TOML escapes. -/
def toml_escape_char (c : Char) : String :=
  if c = '"' then "\\\""
  else if c = '\\' then "\\\\"
  else if c = '\x08' then "\\b"
  else if c = '\t' then "\\t"
  else if c = '\n' then "\\n"
  else if c = '\x0c' then "\\f"
  else if c = '\r' then "\\r"
  else if c.toNat < 32 ∨ c.toNat = 127 then "\\u" ++ hex4 c.toNat
  else String.singleton c

/-- Embeds `ConfigFormat::format_value` (src/src/lib.rs:266-270).  The source
ignores `self` and always serializes through `toml::ser::ValueSerializer`.
Modelled from the spec for the external serializer: the renderer only ever
passes a `String` value, which TOML serializes as a quoted basic string. -/
def ConfigFormat.format_value (_format : ConfigFormat) (value : String) : String :=
  "\"" ++ concat_strings (value.data.map toml_escape_char) ++ "\""

/-- Embeds `ConfigFormat::extension` (src/src/lib.rs:249-255).  The only
reachable arm returns "toml"; the catch-all `unimplemented!` arm is dead code
because the enum has a single variant. -/
def ConfigFormat.extension : ConfigFormat → String
  | ConfigFormat.Toml => "toml"

/-- Splits a character list at every newline character (char-level model of
splitting on `\n`; the separators are consumed). -/
def split_newlines : List Char → List (List Char)
  | [] => [[]]
  | c :: rest =>
    if c = '\n' then [] :: split_newlines rest
    else
      match split_newlines rest with
      | [] => [[c]]
      | h :: t => (c :: h) :: t

/-- Embeds Rust's `str::lines()` (used at src/src/lib.rs:184): split on `\n`,
drop a final empty piece (so a trailing newline adds no line and the empty
string has no lines), and strip one trailing `\r` from each line. -/
def rust_lines (s : String) : List String :=
  let ps := split_newlines s.data
  let ps := if ps.getLast? = some [] then ps.dropLast else ps
  ps.map (fun l => String.mk (if l.getLast? = some '\r' then l.dropLast else l))

/-- Embeds the body of the leaf loop of `write_field_docs`
(src/src/lib.rs:182-200): doc lines as `# ` comments, an optional
`# Default:` comment, the `name = value` line (the default re-serialized
through `format_value`, or the `...` placeholder), then a blank line. -/
def leaf_entry (nf : FieldInfo) (format : ConfigFormat) : String :=
  (match nf.doc_comments with
   | some doc => concat_strings ((rust_lines doc).map (fun line => writelnS ("# " ++ line)))
   | none => "")
  ++ (match nf.default_value with
      | some dflt => writelnS ("# Default: " ++ dflt)
      | none => "")
  ++ writelnS (nf.name ++ " = "
      ++ (match nf.default_value with
          | some val => format.format_value val
          | none => "..."))
  ++ writelnS ""

mutual

/-- Embeds `write_field_docs` (src/src/lib.rs:156-225).  Leaves produce
nothing; a section produces its `##` header, optional verbatim doc text, the
format-specific example block (for `Toml`: fence, `[name]` line, blank line,
leaf entries, closing fence), a trailing blank line, and then the recursion
into its section children with the path extended by its own name. -/
def write_field_docs (field : FieldInfo) (format : ConfigFormat) (depth : Nat)
    (path : String) : String :=
  match field with
  | FieldInfo.mk name doc_comments _default_value _field_type is_nested nested_fields =>
    if is_nested then
      writelnS ("## " ++ capitalize name)
      ++ (match doc_comments with
          | some doc => writelnS "" ++ writelnS doc
          | none => "")
      ++ (match format with
          | ConfigFormat.Toml =>
            writelnS "```toml"
            ++ writelnS ("[" ++ name ++ "]")
            ++ writelnS ""
            ++ write_leaf_entries nested_fields format
            ++ writelnS "```")
      ++ writelnS ""
      ++ (let current_path := if path = "" then name else path ++ "." ++ name
          write_section_children nested_fields format (depth + 1) current_path)
    else ""

/-- Embeds the first loop over `nested_fields` in `write_field_docs`
(src/src/lib.rs:181-201): each non-nested child contributes its leaf entry. -/
def write_leaf_entries (fields : List FieldInfo) (format : ConfigFormat) : String :=
  match fields with
  | [] => ""
  | nf :: rest =>
    (if nf.is_nested then "" else leaf_entry nf format) ++ write_leaf_entries rest format

/-- Embeds the second loop over `nested_fields` in `write_field_docs`
(src/src/lib.rs:217-221): recurse into each nested child. -/
def write_section_children (fields : List FieldInfo) (format : ConfigFormat)
    (depth : Nat) (path : String) : String :=
  match fields with
  | [] => ""
  | nf :: rest =>
    (if nf.is_nested then write_field_docs nf format depth path else "")
    ++ write_section_children rest format depth path

end

/-- Embeds the loop over `fields` in `generate_markdown` (src/src/lib.rs:148-150). -/
def write_all_fields (fields : List FieldInfo) (format : ConfigFormat) : String :=
  match fields with
  | [] => ""
  | f :: rest => write_field_docs f format 0 "" ++ write_all_fields rest format

/-- Embeds `generate_markdown` (src/src/lib.rs:140-153): optional `# title`
header plus blank line, then each top-level field at depth 0 with empty path. -/
def generate_markdown (fields : List FieldInfo) (options : MarkdownOptions) : String :=
  (match options.title with
   | some title => writelnS ("# " ++ title) ++ writelnS ""
   | none => "")
  ++ write_all_fields fields options.format

/-- Embeds `ConfigSchema::generate_docs_with_options` (src/src/lib.rs:134-136). -/
def ConfigSchema.generate_docs_with_options (schema : ConfigSchema)
    (options : MarkdownOptions) : String :=
  generate_markdown schema.fields options

/-- Embeds `to_camel_case` (serde_config_docs_derive/src/lib.rs:349-365).  The
source loop carries a single `capitalize_next` flag; it is rendered here as a
direct recursion whose `Bool` argument is that flag (`to_ascii_uppercase` is
`Char.toUpper`). -/
def to_camel_go : List Char → Bool → List Char
  | [], _ => []
  | c :: rest, capitalize_next =>
    if c = '_' then to_camel_go rest true
    else if capitalize_next then c.toUpper :: to_camel_go rest false
    else c :: to_camel_go rest false

/-- Embeds `to_camel_case` at the `String` level: the flag starts false. -/
def to_camel_case (s : String) : String :=
  String.mk (to_camel_go s.data false)

/-- Embeds `to_pascal_case` (serde_config_docs_derive/src/lib.rs:367-383):
identical loop, but the flag starts true. -/
def to_pascal_case (s : String) : String :=
  String.mk (to_camel_go s.data true)

/-- Embeds `apply_rename_all` (serde_config_docs_derive/src/lib.rs:334-347).
Rust's `replace('_', "-")` and `to_uppercase` are modelled character-wise. -/
def apply_rename_all (field_name : String) (rename_all : Option String) : String :=
  match rename_all with
  | some style =>
    if style = "camelCase" then to_camel_case field_name
    else if style = "PascalCase" then to_pascal_case field_name
    else if style = "snake_case" then field_name
    else if style = "SCREAMING_SNAKE_CASE" then String.mk (field_name.data.map Char.toUpper)
    else if style = "kebab-case" then
      String.mk (field_name.data.map (fun c => if c = '_' then '-' else c))
    else field_name
  | none => field_name

/-- A Rust scalar value returned by a field's default-producing function
(the demo uses `bool`; integers are included for completeness). -/
inductive RustValue where
  | bool (b : Bool)
  | int (i : Int)
deriving Repr, DecidableEq

/-- Embeds `format!("{:?}", default_value)`
(serde_config_docs_derive/src/lib.rs:176) for the modelled scalar values:
Rust `Debug` prints booleans as `true`/`false` and integers bare. -/
def rust_debug : RustValue → String
  | .bool b => if b then "true" else "false"
  | .int i => toString i

/-- The per-field declaration data read by the derive macro
(serde_config_docs_derive/src/lib.rs:129-149): the natural identifier, the
`///` doc-attribute lines, the `#[serde(rename = ...)]` and
`#[serde(default = ...)]` attributes (the latter modelled by the value the
named function returns), the declared type name, and — when the field's type
is itself a config struct — that type's schema fields. -/
structure FieldDecl where
  field_name : String
  docs : List String
  rename : Option String
  default_fn : Option RustValue
  type_name : String
  nested_schema : Option (List FieldInfo)

/-- Embeds `extract_doc_comment` (serde_config_docs_derive/src/lib.rs:201-221):
newline-join the doc-attribute lines, `None` when there are none. -/
def extract_doc_comment (docs : List String) : Option String :=
  if docs.isEmpty then none else some (String.intercalate "\n" docs)

/-- Embeds the per-field body of `process_fields`
(serde_config_docs_derive/src/lib.rs:129-193): resolve the final name
(explicit rename, else the struct-level `rename_all` rule), then construct
either a nested descriptor (`.field_type(...).nested(...)`) or a leaf
descriptor (`.default(...).field_type(...)`, the default stringified with
`format!("{:?}", ...)`).  The generated `.doc(...)` call is commented out in
the source (lines 159 and 188), so no doc text is attached, even though
`extract_doc_comment` is invoked on line 135. -/
def process_field (rename_all : Option String) (fd : FieldDecl) : FieldInfo :=
  let final_name := match fd.rename with
    | some n => n
    | none => apply_rename_all fd.field_name rename_all
  match fd.nested_schema with
  | some nested_fields =>
    ((FieldInfo.new final_name).set_field_type fd.type_name).nested nested_fields
  | none =>
    ((FieldInfo.new final_name).default (fd.default_fn.map rust_debug)).set_field_type
      fd.type_name

/-- Embeds `process_fields` (serde_config_docs_derive/src/lib.rs:125-199):
one descriptor per declared field, in declaration order. -/
def process_fields (rename_all : Option String) (fds : List FieldDecl) :
    List FieldInfo :=
  fds.map (process_field rename_all)

/-- Embeds the generated `schema()` body
(serde_config_docs_derive/src/lib.rs:45-53): a builder chain of `add_field`
calls, one per declared field, finished with `build()`. -/
def derive_schema (rename_all : Option String) (fds : List FieldDecl) : ConfigSchema :=
  ((process_fields rename_all fds).foldl ConfigSchemaBuilder.add_field
    ConfigSchemaBuilder.new).build

/-- The first field declaration of the demo `Global` struct
(demo/src/lib.rs:12-17).  Doc lines are the `#[doc = ...]` values, leading
space included. -/
def demo_decl_disable : FieldDecl :=
  { field_name := "disable_widget_state_duplication_warning"
    docs := [" By default, Streamlit displays a warning when a user sets both a widget"
      , " default value in the function defining the widget and a widget value via"
      , " the widget\x27s key in `st.session_state`."
      , " If you\x27d like to turn off this warning, set this to True."]
    rename := some "disableWidgetStateDuplicationWarning"
    default_fn := some (RustValue.bool false)
    type_name := "bool"
    nested_schema := none }

/-- The second field declaration of the demo `Global` struct
(demo/src/lib.rs:19-22). -/
def demo_decl_show : FieldDecl :=
  { field_name := "show_warning_on_direct_execution"
    docs := [" If True, will show a warning when you run a Streamlit-enabled script"
      , " via \"python my_script.py\"."]
    rename := some "showWarningOnDirectExecution"
    default_fn := some (RustValue.bool true)
    type_name := "bool"
    nested_schema := none }

/-- The derived schema of the demo `Global` struct (demo/src/lib.rs:10-23):
no struct-level `rename_all`, two leaf fields with `bool` type. -/
def Global_schema : ConfigSchema :=
  derive_schema none [demo_decl_disable, demo_decl_show]

/-- The field declaration of the demo `Config` struct (demo/src/lib.rs:4-8):
one field `global` of the nested config type `Global`. -/
def demo_decl_global : FieldDecl :=
  { field_name := "global"
    docs := []
    rename := none
    default_fn := none
    type_name := "Global"
    nested_schema := some Global_schema.fields }

/-- The derived schema of the demo `Config` struct (demo/src/lib.rs:4-8). -/
def Config_schema : ConfigSchema :=
  derive_schema none [demo_decl_global]

/-- Models Rust's `str::to_lowercase` (character-wise; ASCII-faithful). -/
def rust_to_lowercase (s : String) : String :=
  String.mk (s.data.map Char.toLower)

/-- Embeds the format-tag parsing of the generated export test
(serde_config_docs_derive/src/lib.rs:76-82): the lowercased tag `toml` maps
to `ConfigFormat::Toml`; every other tag hits `unimplemented!("Unsupported
format ...")`, modelled as an `Except.error` carrying the offending tag. -/
def parse_config_format (format_str : String) : Except String ConfigFormat :=
  if rust_to_lowercase format_str = "toml" then Except.ok ConfigFormat.Toml
  else Except.error ("Unsupported format " ++ format_str)

/-- Embeds the generated export test's document production
(serde_config_docs_derive/src/lib.rs:72-104): parse the format tag, then —
only if a format was obtained — render with `MarkdownOptions::new` (no
title).  A failed parse aborts with the error; no output string exists. -/
def export_config_docs (fields : List FieldInfo) (format_str : String) :
    Except String String :=
  match parse_config_format format_str with
  | Except.ok fmt => Except.ok (generate_markdown fields (MarkdownOptions.new fmt))
  | Except.error e => Except.error e

/-! ### Line-level view of the renderer

The renderer writes the buffer exclusively through `writeln!`; the
definitions below record the same output as a list of written chunks (one
per line, except that a section's verbatim doc text is one chunk).  The
theorem `generate_markdown_eq_unlines` below proves that joining each chunk
with a newline reproduces `generate_markdown` exactly. -/

/-- Joins chunks, terminating each with a newline. -/
def unlines : List String → String
  | [] => ""
  | l :: ls => writelnS l ++ unlines ls

/-- Line-level view of `leaf_entry`. -/
def leaf_entry_lines (nf : FieldInfo) (format : ConfigFormat) : List String :=
  (match nf.doc_comments with
   | some doc => (rust_lines doc).map (fun line => "# " ++ line)
   | none => [])
  ++ (match nf.default_value with
      | some dflt => ["# Default: " ++ dflt]
      | none => [])
  ++ [nf.name ++ " = "
      ++ (match nf.default_value with
          | some val => format.format_value val
          | none => "...")]
  ++ [""]

mutual

/-- Line-level view of `write_field_docs`. -/
def write_field_lines (field : FieldInfo) (format : ConfigFormat) (depth : Nat)
    (path : String) : List String :=
  match field with
  | FieldInfo.mk name doc_comments _default_value _field_type is_nested nested_fields =>
    if is_nested then
      ["## " ++ capitalize name]
      ++ (match doc_comments with
          | some doc => ["", doc]
          | none => [])
      ++ (match format with
          | ConfigFormat.Toml =>
            ["```toml", "[" ++ name ++ "]", ""]
            ++ leaf_entries_lines nested_fields format
            ++ ["```"])
      ++ [""]
      ++ (let current_path := if path = "" then name else path ++ "." ++ name
          section_children_lines nested_fields format (depth + 1) current_path)
    else []

/-- Line-level view of `write_leaf_entries`. -/
def leaf_entries_lines (fields : List FieldInfo) (format : ConfigFormat) :
    List String :=
  match fields with
  | [] => []
  | nf :: rest =>
    (if nf.is_nested then [] else leaf_entry_lines nf format)
    ++ leaf_entries_lines rest format

/-- Line-level view of `write_section_children`. -/
def section_children_lines (fields : List FieldInfo) (format : ConfigFormat)
    (depth : Nat) (path : String) : List String :=
  match fields with
  | [] => []
  | nf :: rest =>
    (if nf.is_nested then write_field_lines nf format depth path else [])
    ++ section_children_lines rest format depth path

end

/-- Line-level view of `write_all_fields`. -/
def all_field_lines (fields : List FieldInfo) (format : ConfigFormat) : List String :=
  match fields with
  | [] => []
  | f :: rest => write_field_lines f format 0 "" ++ all_field_lines rest format

/-- Line-level view of `generate_markdown`. -/
def generate_lines (fields : List FieldInfo) (options : MarkdownOptions) :
    List String :=
  (match options.title with
   | some title => ["# " ++ title, ""]
   | none => [])
  ++ all_field_lines fields options.format

/-- Recognizes a markdown section-header line: one that begins with `## `. -/
def is_header_line (s : String) : Bool :=
  ['#', '#', ' '].isPrefixOf s.data

mutual

/-- The pre-order sequence of section headers one field gives rise to: a
section contributes `## ` followed by its capitalized name, immediately
followed by the headers of its own section descendants; a leaf contributes
nothing. -/
def field_headers : FieldInfo → List String
  | FieldInfo.mk name _ _ _ is_nested nested_fields =>
    if is_nested then ("## " ++ capitalize name) :: section_headers nested_fields
    else []

/-- The pre-order sequence of section headers of a field list. -/
def section_headers : List FieldInfo → List String
  | [] => []
  | f :: rest => field_headers f ++ section_headers rest

end

/-- True when the string contains no newline character. -/
def no_newline (s : String) : Bool := s.data.all (fun c => c ≠ '\n')

/-- True when the string does not start with `#` (in particular, a line that
starts with it can never be mistaken for a markdown header). -/
def not_hash_led (s : String) : Bool :=
  match s.data with
  | [] => true
  | c :: _ => c ≠ '#'

mutual

/-- Well-formedness of a descriptor for header extraction: its name holds no
newline and is not `#`-led, its default holds no newline, a section's
verbatim doc text holds no newline and is not itself a header line, and all
children are clean.  (A leaf's doc text needs no constraint: its lines are
re-emitted behind `# `.) -/
def clean_field : FieldInfo → Bool
  | FieldInfo.mk name _doc_comments default_value _field_type is_nested nested_fields =>
    no_newline name && not_hash_led name
    && (match default_value with
        | some d => no_newline d
        | none => true)
    && (match is_nested, _doc_comments with
        | true, some doc => no_newline doc && !is_header_line doc
        | _, _ => true)
    && clean_fields nested_fields

/-- `clean_field` on every element. -/
def clean_fields : List FieldInfo → Bool
  | [] => true
  | f :: rest => clean_field f && clean_fields rest

end

/-- Well-formedness of the options for header extraction: a title, when
present, holds no newline. -/
def clean_title (options : MarkdownOptions) : Bool :=
  match options.title with
  | some t => no_newline t
  | none => true

/-! ### Definitions written from the claims (for comparison with the source) -/

mutual

/-- Follows claim C7's words: drop every underscore, leave characters
unchanged until an underscore is dropped... -/
def camel_claim : List Char → List Char
  | [] => []
  | c :: rest =>
    if c = '_' then camel_cap_claim rest else c :: camel_claim rest

/-- ... and uppercase the single character immediately following the dropped
underscore(s) — consecutive underscores carry one pending capitalization. -/
def camel_cap_claim : List Char → List Char
  | [] => []
  | c :: rest =>
    if c = '_' then camel_cap_claim rest else c.toUpper :: camel_claim rest

end

/-- Modelled from the spec: the inverse naming transform of the round-trip
property (spec section 8), absent from the sources — insert an underscore
before each uppercase letter and lowercase it. -/
def to_snake_go : List Char → List Char
  | [] => []
  | c :: rest =>
    if c.isUpper then '_' :: c.toLower :: to_snake_go rest
    else c :: to_snake_go rest

/-- The inverse transform at the `String` level. -/
def to_snake (s : String) : String :=
  String.mk (to_snake_go s.data)

/-- The lowercase ASCII letters, the alphabet of claim C8's identifiers. -/
def lower_chars : List Char := "abcdefghijklmnopqrstuvwxyz".data

/-- True when no two consecutive characters are both underscores. -/
def no_double_underscore : List Char → Bool
  | [] => true
  | [_] => true
  | a :: b :: rest =>
    if a = '_' ∧ b = '_' then false else no_double_underscore (b :: rest)

/-! ### Concrete inputs used by witnesses and counterexamples -/

/-- A section with one leaf carrying a default, for exercising claim C2. -/
def c2_section : FieldInfo :=
  FieldInfo.mk "server" none none "" true
    [FieldInfo.mk "port" none (some "8080") "u16" false []]

/-- A section whose single leaf carries a stringified default `false`. -/
def c2_cex_section : FieldInfo :=
  FieldInfo.mk "s" none none "" true
    [FieldInfo.mk "x" none (some "false") "bool" false []]

/-- A section whose leaf carries attached doc text, for exercising the
renderer half of claim C3. -/
def c3_section : FieldInfo :=
  FieldInfo.mk "ui" none none "" true
    [FieldInfo.mk "theme" (some "Color theme.") none "String" false []]

/-- A section with one leaf child and one (empty) nested section child, for
exercising claim C4. -/
def c4_section : FieldInfo :=
  FieldInfo.mk "outer" none none "" true
    [FieldInfo.mk "x" none none "i32" false [],
     FieldInfo.mk "inner" none none "" true []]

/-- A section containing a nested section: its rendering interleaves a second
`##` header, the counterexample to claim C5 as stated. -/
def c5_nested : FieldInfo :=
  FieldInfo.mk "outer" none none "" true
    [FieldInfo.mk "leaf" none none "bool" false [],
     FieldInfo.mk "inner" none none "" true
       [FieldInfo.mk "y" none none "bool" false []]]

/-- A single top-level leaf field, for exercising claim C6. -/
def c6_leaf : FieldInfo := FieldInfo.mk "verbose" none none "bool" false []

/-! ### Helper lemmas -/

theorem unlines_append (a b : List String) :
    unlines (a ++ b) = unlines a ++ unlines b := by
  induction a with
  | nil => simp [unlines]
  | cons x xs ih => simp [unlines, ih, String.append_assoc]

theorem concat_map_writelnS (ls : List String) :
    concat_strings (ls.map writelnS) = unlines ls := by
  induction ls with
  | nil => rfl
  | cons x xs ih => simp [concat_strings, unlines, ih]

theorem concat_strings_append (a b : List String) :
    concat_strings (a ++ b) = concat_strings a ++ concat_strings b := by
  induction a with
  | nil => simp [concat_strings]
  | cons x xs ih => simp [concat_strings, ih, String.append_assoc]

theorem leaf_entry_eq_unlines (nf : FieldInfo) (format : ConfigFormat) :
    leaf_entry nf format = unlines (leaf_entry_lines nf format) := by
  cases nf with
  | mk name dc dv ft n c =>
    cases dc <;> cases dv <;>
      simp [leaf_entry, leaf_entry_lines, unlines, unlines_append,
        FieldInfo.doc_comments, FieldInfo.default_value, FieldInfo.name,
        ← concat_map_writelnS, Function.comp_def, String.append_assoc,
        List.map_map, concat_strings_append, concat_strings]

mutual

theorem write_field_docs_eq_unlines (field : FieldInfo) (format : ConfigFormat)
    (depth : Nat) (path : String) :
    write_field_docs field format depth path =
      unlines (write_field_lines field format depth path) := by
  cases field with
  | mk name dc dv ft is_nested nested_fields =>
    cases is_nested with
    | false => simp [write_field_docs, write_field_lines, unlines]
    | true =>
      have ih1 := write_leaf_entries_eq_unlines nested_fields format
      have ih2 := write_section_children_eq_unlines nested_fields format (depth + 1)
        (if path = "" then name else path ++ ("." ++ name))
      cases format
      cases dc <;>
        simp [write_field_docs, write_field_lines, unlines, unlines_append,
          ih1, ih2, String.append_assoc]

theorem write_leaf_entries_eq_unlines (fields : List FieldInfo)
    (format : ConfigFormat) :
    write_leaf_entries fields format = unlines (leaf_entries_lines fields format) := by
  match fields with
  | [] => simp [write_leaf_entries, leaf_entries_lines, unlines]
  | nf :: rest =>
    have ih := write_leaf_entries_eq_unlines rest format
    cases h : nf.is_nested <;>
      simp [write_leaf_entries, leaf_entries_lines, h, ih, unlines, unlines_append,
        leaf_entry_eq_unlines]

theorem write_section_children_eq_unlines (fields : List FieldInfo)
    (format : ConfigFormat) (depth : Nat) (path : String) :
    write_section_children fields format depth path =
      unlines (section_children_lines fields format depth path) := by
  match fields with
  | [] => simp [write_section_children, section_children_lines, unlines]
  | nf :: rest =>
    have ih := write_section_children_eq_unlines rest format depth path
    have ihf := write_field_docs_eq_unlines nf format depth path
    cases h : nf.is_nested <;>
      simp [write_section_children, section_children_lines, h, ih, ihf, unlines,
        unlines_append]

end

theorem write_all_fields_eq_unlines (fields : List FieldInfo) (format : ConfigFormat) :
    write_all_fields fields format = unlines (all_field_lines fields format) := by
  induction fields with
  | nil => rfl
  | cons f rest ih =>
    simp [write_all_fields, all_field_lines, unlines_append, ih,
      write_field_docs_eq_unlines]

/-- The string the renderer produces is exactly its line-level view joined
with newlines. -/
theorem generate_markdown_eq_unlines (fields : List FieldInfo)
    (options : MarkdownOptions) :
    generate_markdown fields options = unlines (generate_lines fields options) := by
  cases options with
  | mk title format =>
    cases title <;>
      simp [generate_markdown, generate_lines, unlines, unlines_append,
        write_all_fields_eq_unlines, String.append_assoc]

theorem is_header_line_hash_space (l : String) : is_header_line ("# " ++ l) = false := by
  have h : ("# " ++ l).data = '#' :: ' ' :: l.data := by
    rw [String.data_append]; rfl
  simp [is_header_line, h, List.isPrefixOf]

theorem is_header_line_double_hash (x : String) : is_header_line ("## " ++ x) = true := by
  have h : ("## " ++ x).data = '#' :: '#' :: ' ' :: x.data := by
    rw [String.data_append]; rfl
  simp [is_header_line, h, List.isPrefixOf]

theorem is_header_line_default_comment (d : String) :
    is_header_line ("# Default: " ++ d) = false := by
  have h : ("# Default: " ++ d).data = '#' :: ' ' :: ("Default: " ++ d).data := by
    rw [String.data_append]; rfl
  simp [is_header_line, h, List.isPrefixOf]

theorem is_header_line_bracket (rest : String) : is_header_line ("[" ++ rest) = false := by
  have h : ("[" ++ rest).data = '[' :: rest.data := by
    rw [String.data_append]; rfl
  simp [is_header_line, h, List.isPrefixOf]

theorem not_hash_led_space_eq (v : String) : not_hash_led (" = " ++ v) = true := by
  have h : (" = " ++ v).data = ' ' :: ("= " ++ v).data := by
    rw [String.data_append]; rfl
  simp [not_hash_led, h]

theorem is_header_line_of_not_hash_led (name rest : String)
    (hn : not_hash_led name = true) (hr : not_hash_led rest = true) :
    is_header_line (name ++ rest) = false := by
  rcases hname : name.data with _ | ⟨c, cs⟩
  · have hempty : name = "" := by
      cases name with
      | mk d => cases hname; rfl
    subst hempty
    rw [String.empty_append]
    rcases hrest : rest.data with _ | ⟨d, ds⟩
    · simp [is_header_line, hrest, List.isPrefixOf]
    · have hd : d ≠ '#' := by
        simpa [not_hash_led, hrest] using hr
      simp [is_header_line, hrest, List.isPrefixOf, Ne.symm hd]
  · have hc : c ≠ '#' := by
      simpa [not_hash_led, hname] using hn
    have h : (name ++ rest).data = c :: (cs ++ rest.data) := by
      rw [String.data_append, hname]; rfl
    simp [is_header_line, h, List.isPrefixOf, Ne.symm hc]

theorem filter_header_doc_map (ls : List String) :
    (ls.map (fun line => "# " ++ line)).filter is_header_line = [] := by
  induction ls with
  | nil => rfl
  | cons x xs ih => simp [is_header_line_hash_space, ih]

theorem is_header_line_empty : is_header_line "" = false := by decide

theorem is_header_line_fence_toml : is_header_line "```toml" = false := by decide

theorem is_header_line_fence : is_header_line "```" = false := by decide

theorem filter_header_leaf_entry_lines (nf : FieldInfo) (format : ConfigFormat)
    (h : not_hash_led nf.name = true) :
    (leaf_entry_lines nf format).filter is_header_line = [] := by
  cases nf with
  | mk name dc dv ft n c =>
    have hn : not_hash_led name = true := h
    have hval : ∀ v : String, is_header_line (name ++ (" = " ++ v)) = false := fun v =>
      is_header_line_of_not_hash_led name (" = " ++ v) hn (not_hash_led_space_eq v)
    have hdots : is_header_line (name ++ " = ...") = false := by
      have : (" = " ++ "..." : String) = " = ..." := by decide
      rw [show (name ++ " = ..." : String) = name ++ (" = " ++ "...") by rw [this]]
      exact hval "..."
    cases dc <;> cases dv <;>
      simp [leaf_entry_lines, FieldInfo.doc_comments, FieldInfo.default_value,
        FieldInfo.name, List.filter_append, filter_header_doc_map,
        is_header_line_default_comment, is_header_line_empty,
        String.append_assoc, hval, hdots]

mutual

theorem filter_header_write_field_lines (field : FieldInfo) (format : ConfigFormat)
    (depth : Nat) (path : String) (h : clean_field field = true) :
    (write_field_lines field format depth path).filter is_header_line =
      field_headers field := by
  cases field with
  | mk name dc dv ft is_nested nested_fields =>
    cases is_nested with
    | false => simp [write_field_lines, field_headers]
    | true =>
      cases format
      have hchildren : clean_fields nested_fields = true := by
        simp [clean_field, Bool.and_eq_true] at h
        exact h.2
      have ih1 := filter_header_leaf_entries nested_fields ConfigFormat.Toml hchildren
      have ih2 := filter_header_section_children nested_fields ConfigFormat.Toml
        (depth + 1) (if path = "" then name else path ++ ("." ++ name)) hchildren
      cases dc with
      | none =>
        simp [write_field_lines, field_headers, List.filter_append, ih1, ih2,
          is_header_line_double_hash, is_header_line_empty, is_header_line_bracket,
          is_header_line_fence_toml, is_header_line_fence, String.append_assoc]
      | some doc =>
        have hdocline : is_header_line doc = false := by
          simp [clean_field, Bool.and_eq_true] at h
          exact h.1.2.2
        simp [write_field_lines, field_headers, List.filter_append, ih1, ih2,
          is_header_line_double_hash, is_header_line_empty, is_header_line_bracket,
          is_header_line_fence_toml, is_header_line_fence, String.append_assoc,
          hdocline]

theorem filter_header_leaf_entries (fields : List FieldInfo) (format : ConfigFormat)
    (h : clean_fields fields = true) :
    (leaf_entries_lines fields format).filter is_header_line = [] := by
  match fields with
  | [] => rfl
  | nf :: rest =>
    have hparts := by simpa [clean_fields, Bool.and_eq_true] using h
    obtain ⟨hf, hrest⟩ := hparts
    have ih := filter_header_leaf_entries rest format hrest
    have hname : not_hash_led nf.name = true := by
      cases nf with
      | mk n d v t s c =>
        simp [clean_field, Bool.and_eq_true] at hf
        exact hf.1.1.1.2
    cases hn : nf.is_nested <;>
      simp [leaf_entries_lines, hn, List.filter_append, ih,
        filter_header_leaf_entry_lines nf format hname]

theorem filter_header_section_children (fields : List FieldInfo)
    (format : ConfigFormat) (depth : Nat) (path : String)
    (h : clean_fields fields = true) :
    (section_children_lines fields format depth path).filter is_header_line =
      section_headers fields := by
  match fields with
  | [] => rfl
  | nf :: rest =>
    have hparts := by simpa [clean_fields, Bool.and_eq_true] using h
    obtain ⟨hf, hrest⟩ := hparts
    have ih := filter_header_section_children rest format depth path hrest
    have ihf := filter_header_write_field_lines nf format depth path hf
    cases hn : nf.is_nested with
    | false =>
      have : field_headers nf = [] := by
        cases nf with
        | mk n d v t s c => cases hn; simp [field_headers]
      simp [section_children_lines, section_headers, hn, List.filter_append, ih, this]
    | true =>
      simp [section_children_lines, section_headers, hn, List.filter_append, ih, ihf]

end

theorem filter_header_all_field_lines (fields : List FieldInfo)
    (format : ConfigFormat) (h : clean_fields fields = true) :
    (all_field_lines fields format).filter is_header_line = section_headers fields := by
  induction fields with
  | nil => rfl
  | cons f rest ih =>
    have hparts := by simpa [clean_fields, Bool.and_eq_true] using h
    obtain ⟨hf, hrest⟩ := hparts
    simp [all_field_lines, section_headers, List.filter_append, ih hrest,
      filter_header_write_field_lines f format 0 "" hf]

theorem filter_header_generate_lines (fields : List FieldInfo)
    (options : MarkdownOptions) (h : clean_fields fields = true) :
    (generate_lines fields options).filter is_header_line = section_headers fields := by
  cases options with
  | mk title format =>
    cases title <;>
      simp [generate_lines, List.filter_append, is_header_line_hash_space,
        is_header_line_empty, filter_header_all_field_lines fields format h]

theorem write_field_docs_of_leaf (f : FieldInfo) (format : ConfigFormat)
    (depth : Nat) (path : String) (h : f.is_nested = false) :
    write_field_docs f format depth path = "" := by
  cases f with
  | mk n dc dv ft s c =>
    cases h
    simp [write_field_docs]

theorem write_section_children_eq_filter (fields : List FieldInfo)
    (format : ConfigFormat) (depth : Nat) (path : String) :
    write_section_children fields format depth path =
      concat_strings (((fields.filter (fun c => c.is_nested)).map
        (fun c => write_field_docs c format depth path))) := by
  induction fields with
  | nil => rfl
  | cons nf rest ih =>
    cases hn : nf.is_nested <;>
      simp [write_section_children, List.filter_cons, hn, ih, concat_strings]

theorem leaf_entries_lines_decomp (fields : List FieldInfo) (format : ConfigFormat)
    (nf : FieldInfo) (h : nf ∈ fields) (hleaf : nf.is_nested = false) :
    ∃ pre post, leaf_entries_lines fields format =
      pre ++ leaf_entry_lines nf format ++ post := by
  induction fields with
  | nil => cases h
  | cons f rest ih =>
    rcases List.mem_cons.mp h with rfl | hmem
    · exact ⟨[], leaf_entries_lines rest format, by
        simp [leaf_entries_lines, hleaf]⟩
    · rcases ih hmem with ⟨pre, post, hdecomp⟩
      exact ⟨(if f.is_nested then [] else leaf_entry_lines f format) ++ pre, post, by
        simp [leaf_entries_lines, hdecomp, List.append_assoc]⟩

theorem write_field_lines_leaf_decomp (f : FieldInfo) (format : ConfigFormat)
    (depth : Nat) (path : String) (nf : FieldInfo) (hsec : f.is_nested = true)
    (hmem : nf ∈ f.nested_fields) (hleaf : nf.is_nested = false) :
    ∃ pre post, write_field_lines f format depth path =
      pre ++ leaf_entry_lines nf format ++ post := by
  cases f with
  | mk name dc dv ft s c =>
    cases hsec
    have hmem : nf ∈ c := hmem
    rcases leaf_entries_lines_decomp c format nf hmem hleaf with ⟨pre, post, hdecomp⟩
    cases format
    refine ⟨(["## " ++ capitalize name]
      ++ (match dc with
          | some doc => ["", doc]
          | none => [])
      ++ ["```toml", "[" ++ name ++ "]", ""]) ++ pre
      , post ++ (["```"] ++ [""]
        ++ section_children_lines c ConfigFormat.Toml (depth + 1)
          (if path = "" then name else path ++ "." ++ name)), ?_⟩
    cases dc <;>
      simp [write_field_lines, hdecomp, List.append_assoc]

theorem write_all_fields_of_leaves (fields : List FieldInfo) (format : ConfigFormat)
    (h : ∀ f ∈ fields, f.is_nested = false) :
    write_all_fields fields format = "" := by
  induction fields with
  | nil => rfl
  | cons f rest ih =>
    have hf := h f (List.mem_cons_self f rest)
    simp [write_all_fields, write_field_docs_of_leaf f format 0 "" hf,
      ih (fun g hg => h g (List.mem_cons_of_mem f hg))]

theorem to_camel_go_eq_claim (l : List Char) :
    to_camel_go l false = camel_claim l ∧ to_camel_go l true = camel_cap_claim l := by
  induction l with
  | nil => simp [to_camel_go, camel_claim, camel_cap_claim]
  | cons c rest ih =>
    by_cases hc : c = '_' <;>
      simp [to_camel_go, camel_claim, camel_cap_claim, hc, ih.1, ih.2]

theorem lower_chars_toUpper_isUpper :
    ∀ c ∈ lower_chars, (Char.toUpper c).isUpper = true := by decide

theorem lower_chars_toUpper_toLower :
    ∀ c ∈ lower_chars, (Char.toUpper c).toLower = c := by decide

theorem lower_chars_not_isUpper : ∀ c ∈ lower_chars, c.isUpper = false := by decide

theorem lower_chars_ne_underscore : ∀ c ∈ lower_chars, c ≠ '_' := by decide

theorem no_double_underscore_tail (a : Char) (l : List Char)
    (h : no_double_underscore (a :: l) = true) : no_double_underscore l = true := by
  match l with
  | [] => rfl
  | b :: rest =>
    rw [no_double_underscore] at h
    split at h
    · cases h
    · exact h

theorem no_double_underscore_head (a b : Char) (l : List Char)
    (h : no_double_underscore (a :: b :: l) = true) : ¬(a = '_' ∧ b = '_') := by
  rw [no_double_underscore] at h
  intro hab
  rw [if_pos hab] at h
  cases h

theorem roundtrip_aux :
    ∀ (n : Nat) (l : List Char), l.length ≤ n →
      (∀ c ∈ l, c ∈ lower_chars ∨ c = '_') →
      l.head? ≠ some '_' → l.getLast? ≠ some '_' →
      no_double_underscore l = true →
      to_snake_go (to_camel_go l false) = l := by
  intro n
  induction n with
  | zero =>
    intro l hlen _ _ _ _
    have : l = [] := List.eq_nil_of_length_eq_zero (Nat.le_zero.mp hlen)
    subst this
    rfl
  | succ n ih =>
    intro l hlen hall hhead hlast hchain
    match l with
    | [] => rfl
    | c :: rest =>
      have hc : c ∈ lower_chars := by
        rcases hall c (List.mem_cons_self c rest) with h | h
        · exact h
        · exact absurd (by rw [h]; rfl) hhead
      have hcu : c ≠ '_' := lower_chars_ne_underscore c hc
      match rest with
      | [] =>
        simp [to_camel_go, hcu, to_snake_go, lower_chars_not_isUpper c hc]
      | e :: rest2 =>
        by_cases he : e = '_'
        · subst he
          match rest2 with
          | [] =>
            exact absurd (by simp : (c :: '_' :: []).getLast? = some '_') hlast
          | d :: rest3 =>
            have hd : d ≠ '_' := by
              have := no_double_underscore_head '_' d rest3
                (no_double_underscore_tail c _ hchain)
              intro hdeq
              exact this ⟨rfl, hdeq⟩
            have hdl : d ∈ lower_chars := by
              rcases hall d (by simp) with h | h
              · exact h
              · exact absurd h hd
            have hsub : to_snake_go (to_camel_go (d :: rest3) false) = d :: rest3 := by
              refine ih (d :: rest3) ?_ ?_ ?_ ?_ ?_
              · have : (c :: '_' :: d :: rest3).length = (d :: rest3).length + 2 := by
                  simp
                omega
              · intro x hx
                exact hall x (by simp [hx])
              · simpa using hd
              · simpa [List.getLast?_cons_cons] using hlast
              · exact no_double_underscore_tail '_'
                  _ (no_double_underscore_tail c _ hchain)
            have hrest3 : to_snake_go (to_camel_go rest3 false) = rest3 := by
              have hstep : to_camel_go (d :: rest3) false = d :: to_camel_go rest3 false := by
                simp [to_camel_go, hd]
              rw [hstep] at hsub
              have : to_snake_go (d :: to_camel_go rest3 false) =
                  d :: to_snake_go (to_camel_go rest3 false) := by
                simp [to_snake_go, lower_chars_not_isUpper d hdl]
              rw [this] at hsub
              injection hsub
            calc to_snake_go (to_camel_go (c :: '_' :: d :: rest3) false)
                = to_snake_go (c :: Char.toUpper d :: to_camel_go rest3 false) := by
                  simp [to_camel_go, hcu, hd]
              _ = c :: '_' :: (Char.toUpper d).toLower :: to_snake_go (to_camel_go rest3 false) := by
                  simp [to_snake_go, lower_chars_not_isUpper c hc,
                    lower_chars_toUpper_isUpper d hdl]
              _ = c :: '_' :: d :: rest3 := by
                  rw [lower_chars_toUpper_toLower d hdl, hrest3]
        · have hsub : to_snake_go (to_camel_go (e :: rest2) false) = e :: rest2 := by
            refine ih (e :: rest2) ?_ ?_ ?_ ?_ ?_
            · have : (c :: e :: rest2).length = (e :: rest2).length + 1 := by simp
              omega
            · intro x hx
              exact hall x (by simp [hx])
            · simpa using he
            · simpa [List.getLast?_cons_cons] using hlast
            · exact no_double_underscore_tail c _ hchain
          calc to_snake_go (to_camel_go (c :: e :: rest2) false)
              = to_snake_go (c :: to_camel_go (e :: rest2) false) := by
                simp [to_camel_go, hcu]
            _ = c :: to_snake_go (to_camel_go (e :: rest2) false) := by
                simp [to_snake_go, lower_chars_not_isUpper c hc]
            _ = c :: e :: rest2 := by rw [hsub]

/-! ### Claims -/

/-- Claim C1, counterexample to the claim as stated: in the document rendered
for the demo schema (one section `global` with the two renamed leaves), no
line reads `disableWidgetStateDuplicationWarning = false` — the rendered value
is the re-serialized TOML string `"false"` — so the claimed
default-comment-plus-`name = value` pair with value `false` does not occur.
The third conjunct ties the line view to the actual rendered string. -/
theorem claim_C1_cex :
    (generate_lines Config_schema.fields (MarkdownOptions.new ConfigFormat.Toml)).contains
      "disableWidgetStateDuplicationWarning = false" = false
    ∧ (generate_lines Config_schema.fields (MarkdownOptions.new ConfigFormat.Toml)).contains
      "disableWidgetStateDuplicationWarning = \"false\"" = true
    ∧ generate_markdown Config_schema.fields (MarkdownOptions.new ConfigFormat.Toml)
      = unlines (generate_lines Config_schema.fields (MarkdownOptions.new ConfigFormat.Toml)) :=
  ⟨by decide, by decide,
    generate_markdown_eq_unlines Config_schema.fields (MarkdownOptions.new ConfigFormat.Toml)⟩

/-- Claim C1 as amended: rendering the demo schema with the Toml format
produces exactly the document with the `## Global` header, the ```` ```toml ````
fence, the `[global]` line, and, in declaration order, a `# Default: ...`
comment line followed by a `name = value` line for each renamed leaf — whose
rendered values are the TOML re-quoted strings `"false"` and `"true"` — then
the closing fence. -/
theorem claim_C1 :
    generate_markdown Config_schema.fields (MarkdownOptions.new ConfigFormat.Toml) =
      "## Global\n```toml\n[global]\n\n# Default: false\ndisableWidgetStateDuplicationWarning = \"false\"\n\n# Default: true\nshowWarningOnDirectExecution = \"true\"\n\n```\n\n" := by
  decide

/-- Claim C2, counterexample to the claim as stated: for a leaf with default
string `false` the rendered example line is `x = "false"` (the default
re-serialized as a quoted TOML string), not the claimed byte-for-byte
`x = false`. -/
theorem claim_C2_cex :
    (write_field_lines c2_cex_section ConfigFormat.Toml 0 "").contains "x = false" = false
    ∧ (write_field_lines c2_cex_section ConfigFormat.Toml 0 "").contains "x = \"false\"" = true
    ∧ write_field_docs c2_cex_section ConfigFormat.Toml 0 ""
      = unlines (write_field_lines c2_cex_section ConfigFormat.Toml 0 "") :=
  ⟨by decide, by decide, write_field_docs_eq_unlines c2_cex_section ConfigFormat.Toml 0 ""⟩

/-- Claim C2 as amended: for every leaf child of a rendered section that
carries a default string `d`, the comment line `# Default: d` (the raw
default, byte-for-byte) immediately precedes the example line, and that line
is `name = format_value d` — the default re-serialized as a quoted TOML
string, not emitted byte-for-byte. -/
theorem claim_C2 (f nf : FieldInfo) (d : String) (depth : Nat) (path : String)
    (hsec : f.is_nested = true) (hmem : nf ∈ f.nested_fields)
    (hleaf : nf.is_nested = false) (hd : nf.default_value = some d) :
    ∃ pre post, write_field_lines f ConfigFormat.Toml depth path =
      pre ++ ["# Default: " ++ d,
        nf.name ++ " = " ++ ConfigFormat.format_value ConfigFormat.Toml d] ++ post := by
  rcases write_field_lines_leaf_decomp f ConfigFormat.Toml depth path nf hsec hmem hleaf
    with ⟨pre, post, hdecomp⟩
  cases nf with
  | mk name dc dv ft s c =>
    simp only [FieldInfo.default_value] at hd
    subst hd
    cases dc with
    | none =>
      refine ⟨pre, [""] ++ post, ?_⟩
      simpa [leaf_entry_lines, FieldInfo.doc_comments, FieldInfo.default_value,
        FieldInfo.name, List.append_assoc] using hdecomp
    | some doc =>
      refine ⟨pre ++ (rust_lines doc).map (fun line => "# " ++ line), [""] ++ post, ?_⟩
      simpa [leaf_entry_lines, FieldInfo.doc_comments, FieldInfo.default_value,
        FieldInfo.name, List.append_assoc] using hdecomp

/-- Witness for claim C2's theorem at the concrete section `c2_section`. -/
theorem claim_C2_witness :
    ∃ pre post, write_field_lines c2_section ConfigFormat.Toml 0 "" =
      pre ++ ["# Default: " ++ "8080",
        (FieldInfo.mk "port" none (some "8080") "u16" false []).name ++ " = "
          ++ ConfigFormat.format_value ConfigFormat.Toml "8080"] ++ post :=
  claim_C2 c2_section (FieldInfo.mk "port" none (some "8080") "u16" false []) "8080" 0 ""
    rfl (by simp [c2_section, FieldInfo.nested_fields]) rfl rfl

/-- Claim C3, counterexample to the claim as stated: the demo field
`disable_widget_state_duplication_warning` carries source doc comments (and
`extract_doc_comment` does join them), yet the descriptor the derive produces
has no doc text — the generated `.doc(...)` call is commented out — and every
descriptor of the demo `Global` schema likewise carries none. -/
theorem claim_C3_cex :
    demo_decl_disable.docs ≠ []
    ∧ extract_doc_comment demo_decl_disable.docs ≠ none
    ∧ (process_field none demo_decl_disable).doc_comments = none
    ∧ Global_schema.fields.all (fun f => f.doc_comments.isNone) = true :=
  ⟨by decide, by decide, by decide, by decide⟩

/-- Claim C3 as amended: the derive extracts the newline-joined, verbatim doc
text (`extract_doc_comment`) but never attaches it — every descriptor it
produces has no doc text — while the renderer does emit, for a leaf
descriptor that does carry doc text, each of its lines prefixed as a `# `
comment inside the parent section's example block. -/
theorem claim_C3 :
    (∀ (rename_all : Option String) (fd : FieldDecl),
      (process_field rename_all fd).doc_comments = none)
    ∧ (∀ docs : List String, docs ≠ [] →
      extract_doc_comment docs = some (String.intercalate "\n" docs))
    ∧ (∀ (f nf : FieldInfo) (depth : Nat) (path : String) (doc : String),
      f.is_nested = true → nf ∈ f.nested_fields → nf.is_nested = false →
      nf.doc_comments = some doc →
      ∃ pre post, write_field_lines f ConfigFormat.Toml depth path =
        pre ++ (rust_lines doc).map (fun line => "# " ++ line) ++ post) := by
  refine ⟨?_, ?_, ?_⟩
  · intro rename_all fd
    cases hn : fd.nested_schema <;>
      simp [process_field, hn, FieldInfo.new, FieldInfo.set_field_type,
        FieldInfo.nested, FieldInfo.default, FieldInfo.doc_comments]
  · intro docs h
    rw [extract_doc_comment, if_neg]
    simp [h]
  · intro f nf depth path doc hsec hmem hleaf hdoc
    rcases write_field_lines_leaf_decomp f ConfigFormat.Toml depth path nf hsec hmem hleaf
      with ⟨pre, post, hdecomp⟩
    cases nf with
    | mk name dc dv ft s c =>
      simp only [FieldInfo.doc_comments] at hdoc
      subst hdoc
      refine ⟨pre,
        ((match dv with
          | some dflt => ["# Default: " ++ dflt]
          | none => [])
        ++ [name ++ " = "
            ++ (match dv with
                | some val => ConfigFormat.format_value ConfigFormat.Toml val
                | none => "...")]
        ++ [""]) ++ post, ?_⟩
      cases dv <;>
        simpa [leaf_entry_lines, FieldInfo.doc_comments, FieldInfo.default_value,
          FieldInfo.name, List.append_assoc] using hdecomp

/-- Witness for claim C3's theorem: the demo leaf declaration, a two-line doc
join, and the concrete section `c3_section` whose leaf carries doc text. -/
theorem claim_C3_witness :
    (process_field none demo_decl_disable).doc_comments = none
    ∧ extract_doc_comment ["a", "b"] = some (String.intercalate "\n" ["a", "b"])
    ∧ ∃ pre post, write_field_lines c3_section ConfigFormat.Toml 0 "" =
        pre ++ (rust_lines "Color theme.").map (fun line => "# " ++ line) ++ post :=
  ⟨claim_C3.1 none demo_decl_disable,
   claim_C3.2.1 ["a", "b"] (by decide),
   claim_C3.2.2 c3_section (FieldInfo.mk "theme" (some "Color theme.") none "String" false [])
     0 "" "Color theme." rfl (by simp [c3_section, FieldInfo.nested_fields]) rfl rfl⟩

/-- Claim C4: a section's output is its `##` header built from the section
name with only its first character capitalized, the optional doc block, the
example block, a trailing blank line, and then — after the block is closed —
the renderings of exactly its section children (leaf children skipped), in
declaration order, at depth+1 with the path extended by the section's name. -/
theorem claim_C4 (f : FieldInfo) (format : ConfigFormat) (depth : Nat) (path : String)
    (hsec : f.is_nested = true) :
    write_field_docs f format depth path =
      writelnS ("## " ++ capitalize f.name)
      ++ (match f.doc_comments with
          | some doc => writelnS "" ++ writelnS doc
          | none => "")
      ++ (writelnS "```toml" ++ writelnS ("[" ++ f.name ++ "]") ++ writelnS ""
          ++ write_leaf_entries f.nested_fields format ++ writelnS "```")
      ++ writelnS ""
      ++ concat_strings ((f.nested_fields.filter (fun c => c.is_nested)).map
          (fun c => write_field_docs c format (depth + 1)
            (if path = "" then f.name else path ++ "." ++ f.name))) := by
  cases f with
  | mk name dc dv ft s c =>
    cases hsec
    cases format
    cases dc <;>
      simp [write_field_docs, write_section_children_eq_filter,
        FieldInfo.name, FieldInfo.doc_comments, FieldInfo.nested_fields,
        String.append_assoc]

/-- Witness for claim C4's theorem at the concrete section `c4_section`. -/
theorem claim_C4_witness :
    c4_section.is_nested = true
    ∧ write_field_docs c4_section ConfigFormat.Toml 0 "" =
      writelnS ("## " ++ capitalize c4_section.name)
      ++ (match c4_section.doc_comments with
          | some doc => writelnS "" ++ writelnS doc
          | none => "")
      ++ (writelnS "```toml" ++ writelnS ("[" ++ c4_section.name ++ "]") ++ writelnS ""
          ++ write_leaf_entries c4_section.nested_fields ConfigFormat.Toml ++ writelnS "```")
      ++ writelnS ""
      ++ concat_strings ((c4_section.nested_fields.filter (fun c => c.is_nested)).map
          (fun c => write_field_docs c ConfigFormat.Toml (0 + 1)
            (if ("" : String) = "" then c4_section.name else "" ++ "." ++ c4_section.name))) :=
  ⟨rfl, claim_C4 c4_section ConfigFormat.Toml 0 "" rfl⟩

/-- Claim C5, counterexample to the claim as stated: for a schema whose single
top-level section contains a nested section, the sequence of section-header
lines in the rendered output is `## Outer, ## Inner`, while the declaration
order of the top-level fields restricted to sections yields only `## Outer` —
the two sequences differ. -/
theorem claim_C5_cex :
    (generate_lines [c5_nested] (MarkdownOptions.new ConfigFormat.Toml)).filter is_header_line
      = ["## Outer", "## Inner"]
    ∧ ([c5_nested].filter (fun f => f.is_nested)).map (fun f => "## " ++ capitalize f.name)
      = ["## Outer"]
    ∧ (["## Outer", "## Inner"] : List String) ≠ ["## Outer"] :=
  ⟨by decide, by decide, by decide⟩

/-- Claim C5 as amended: for every schema whose names, defaults and section
doc texts cannot fake or hide a header line, the sequence of section-header
lines of the rendered output equals the pre-order traversal of the section
descriptors — top-level sections in declaration order, each immediately
followed by its section descendants — and leaf top-level fields contribute no
header and no output of their own.  The first conjunct ties the line view to
the rendered string. -/
theorem claim_C5 (fields : List FieldInfo) (options : MarkdownOptions)
    (hclean : clean_fields fields = true) (_htitle : clean_title options = true) :
    generate_markdown fields options = unlines (generate_lines fields options)
    ∧ (generate_lines fields options).filter is_header_line = section_headers fields
    ∧ ∀ f ∈ fields, f.is_nested = false →
        write_field_docs f options.format 0 "" = "" :=
  ⟨generate_markdown_eq_unlines fields options,
   filter_header_generate_lines fields options hclean,
   fun f _ hf => write_field_docs_of_leaf f options.format 0 "" hf⟩

/-- Witness for claim C5's theorem at the demo schema. -/
theorem claim_C5_witness :
    clean_fields Config_schema.fields = true
    ∧ clean_title (MarkdownOptions.new ConfigFormat.Toml) = true
    ∧ (generate_markdown Config_schema.fields (MarkdownOptions.new ConfigFormat.Toml)
        = unlines (generate_lines Config_schema.fields (MarkdownOptions.new ConfigFormat.Toml))
      ∧ (generate_lines Config_schema.fields (MarkdownOptions.new ConfigFormat.Toml)).filter
          is_header_line = section_headers Config_schema.fields
      ∧ ∀ f ∈ Config_schema.fields, f.is_nested = false →
          write_field_docs f (MarkdownOptions.new ConfigFormat.Toml).format 0 "" = "") :=
  ⟨by decide, by decide,
    claim_C5 Config_schema.fields (MarkdownOptions.new ConfigFormat.Toml)
      (by decide) (by decide)⟩

/-- Claim C6: a schema whose top-level fields are all leaves renders to the
empty string when no title is set, and to exactly the `# title` header plus a
blank line when a title is set. -/
theorem claim_C6 (fields : List FieldInfo) (options : MarkdownOptions)
    (h : ∀ f ∈ fields, f.is_nested = false) :
    generate_markdown fields options =
      (match options.title with
       | some t => "# " ++ t ++ "\n\n"
       | none => "") := by
  cases options with
  | mk title format =>
    cases title <;>
      simp [generate_markdown, write_all_fields_of_leaves fields format h, writelnS,
        String.append_assoc]

/-- Witness for claim C6's theorem: a single leaf field, with and without a
title. -/
theorem claim_C6_witness :
    (∀ f ∈ [c6_leaf], f.is_nested = false)
    ∧ generate_markdown [c6_leaf]
        { title := some "Config Reference", format := ConfigFormat.Toml }
      = "# Config Reference\n\n"
    ∧ generate_markdown [c6_leaf] (MarkdownOptions.new ConfigFormat.Toml) = "" := by
  have hleaf : ∀ f ∈ [c6_leaf], f.is_nested = false := by
    intro f hf
    rcases List.mem_singleton.mp hf with rfl
    rfl
  exact ⟨hleaf,
    claim_C6 [c6_leaf] { title := some "Config Reference", format := ConfigFormat.Toml } hleaf,
    claim_C6 [c6_leaf] (MarkdownOptions.new ConfigFormat.Toml) hleaf⟩

/-- Claim C7: the camel-case transform equals, on every input, the transform
described by the claim — drop each underscore, uppercase the single character
immediately following the dropped underscore(s) (one pending-capitalization
flag carried across consecutive underscores, so nothing is doubly
uppercased), leave the first character's case unchanged — and the empty
string maps to the empty string. -/
theorem claim_C7 :
    (∀ s : String, to_camel_case s = String.mk (camel_claim s.data))
    ∧ to_camel_case "" = "" :=
  ⟨fun s => congrArg String.mk (to_camel_go_eq_claim s.data).1, rfl⟩

/-- Claim C8: for an identifier over lowercase letters and underscores with
no leading underscore, no trailing underscore and no consecutive underscores,
converting to camel case and back through the underscore-insertion transform
recovers the identifier exactly. -/
theorem claim_C8 (s : String)
    (hall : ∀ c ∈ s.data, c ∈ lower_chars ∨ c = '_')
    (hhead : s.data.head? ≠ some '_')
    (hlast : s.data.getLast? ≠ some '_')
    (hchain : no_double_underscore s.data = true) :
    to_snake (to_camel_case s) = s := by
  have h := roundtrip_aux s.data.length s.data le_rfl hall hhead hlast hchain
  cases s with
  | mk data => simpa [to_snake, to_camel_case] using congrArg String.mk h

/-- Witness for claim C8's theorem at the identifier `abc_de_f`. -/
theorem claim_C8_witness :
    (∀ c ∈ ("abc_de_f" : String).data, c ∈ lower_chars ∨ c = '_')
    ∧ ("abc_de_f" : String).data.head? ≠ some '_'
    ∧ ("abc_de_f" : String).data.getLast? ≠ some '_'
    ∧ no_double_underscore ("abc_de_f" : String).data = true
    ∧ to_snake (to_camel_case "abc_de_f") = "abc_de_f" :=
  ⟨by decide, by decide, by decide, by decide,
    claim_C8 "abc_de_f" (by decide) (by decide) (by decide) (by decide)⟩

/-- Claim C9: requesting a format tag outside the registered set (any tag
whose lowercasing is not `toml` — the enum itself has exactly the one
registered variant) fails loudly in the export path before any rendering: the
result is the `Unsupported format` error carrying the offending tag, and no
output string — not even an empty one — is produced. -/
theorem claim_C9 (fields : List FieldInfo) (tag : String)
    (h : rust_to_lowercase tag ≠ "toml") :
    export_config_docs fields tag = Except.error ("Unsupported format " ++ tag)
    ∧ ∀ out : String, export_config_docs fields tag ≠ Except.ok out := by
  have hp : parse_config_format tag = Except.error ("Unsupported format " ++ tag) := by
    simp [parse_config_format, h]
  exact ⟨by simp [export_config_docs, hp], fun out => by simp [export_config_docs, hp]⟩

/-- Witness for claim C9's theorem at the unregistered tag `json`. -/
theorem claim_C9_witness :
    rust_to_lowercase "json" ≠ "toml"
    ∧ (export_config_docs Config_schema.fields "json"
        = Except.error ("Unsupported format " ++ "json")
      ∧ ∀ out : String, export_config_docs Config_schema.fields "json" ≠ Except.ok out) :=
  ⟨by decide, claim_C9 Config_schema.fields "json" (by decide)⟩

/-- Claim C10: a section descriptor with an empty children sequence renders
(totally, with no error path) to exactly its capitalized `##` header, the
optional doc block, the opening fence, the `[name]` line, a blank line, the
closing fence, and a trailing blank line — no leaf entries and no recursion
output. -/
theorem claim_C10 (name : String) (dc dv : Option String) (ftype : String)
    (depth : Nat) (path : String) :
    write_field_docs (FieldInfo.mk name dc dv ftype true []) ConfigFormat.Toml depth path
      = writelnS ("## " ++ capitalize name)
        ++ (match dc with
            | some doc => writelnS "" ++ writelnS doc
            | none => "")
        ++ (writelnS "```toml" ++ writelnS ("[" ++ name ++ "]") ++ writelnS ""
            ++ writelnS "```")
        ++ writelnS "" := by
  cases dc <;>
    simp [write_field_docs, write_leaf_entries, write_section_children,
      String.append_assoc]

end SerdeConfigDocs
